import Mathlib

/-!
Verification of the commit-diff extraction and pairing pipeline of
`CyDSProject_Part_2.py`.

The Python source is shallowly embedded: the external git backend
(GitPython) and the filesystem are modelled as an explicit environment
(`World`), every fallible library call is an `Except String` value, and
the two core functions `get_file_content` and `process_repository` are
translated statement by statement.  Log output (`logging.info` /
`logging.warning` / `logging.error`) is modelled as a list of strings
tagged with the level, so that the logging clauses of the specification
are checkable.
-/

namespace CyDS

/-! ## Configuration constants (source lines 14-17) -/

/-- Source line 14: `CLONED_REPOS_DIR = 'cloned_repos'`. -/
def CLONED_REPOS_DIR : String := "cloned_repos"

/-- Source line 15: `VALID_EXTENSIONS = ['.java', '.py', '.js', '.c', '.cpp', '.h', '.go']`. -/
def VALID_EXTENSIONS : List String := [".java", ".py", ".js", ".c", ".cpp", ".h", ".go"]

/-- Source line 16: `MIN_CODE_LENGTH = 50` (minimum lines of code to consider). -/
def MIN_CODE_LENGTH : Nat := 50

/-- Source line 17: `MAX_FILE_SIZE = 100000` (100KB max file size). -/
def MAX_FILE_SIZE : Nat := 100000

/-! ## Python string primitives used by the source

`str.splitlines` splits on the Python universal line boundaries.  The
two-character boundary `"\r\n"` counts as a single break, so we first
normalise `"\r\n"` and lone `"\r"` to `"\n"` and then split on the
single-character boundaries.  No trailing empty line is produced when
the text ends with a boundary, and `""` splits into `[]`, exactly as in
Python. -/

/-- Single-character line boundaries of Python `str.splitlines`
(LF, VT, FF, CR, FS, GS, RS, NEL, LINE SEPARATOR, PARAGRAPH SEPARATOR). -/
def isLineBreak (c : Char) : Bool :=
  c.toNat = 10 || c.toNat = 11 || c.toNat = 12 || c.toNat = 13 ||
  c.toNat = 28 || c.toNat = 29 || c.toNat = 30 || c.toNat = 133 ||
  c.toNat = 8232 || c.toNat = 8233

/-- Replace each `"\r\n"` pair and each lone `"\r"` by `"\n"`. -/
def normNewlines : List Char → List Char
  | [] => []
  | [c] => if c = '\r' then ['\n'] else [c]
  | c :: d :: rest =>
    if c = '\r' then
      if d = '\n' then '\n' :: normNewlines rest
      else '\n' :: normNewlines (d :: rest)
    else c :: normNewlines (d :: rest)

/-- Split a normalised character list at single-character line boundaries;
`acc` holds the (reversed) characters of the current line. -/
def splitOnBreaks : List Char → List Char → List String
  | [], acc => if acc.isEmpty then [] else [acc.reverse.asString]
  | c :: rest, acc =>
    if isLineBreak c then acc.reverse.asString :: splitOnBreaks rest []
    else splitOnBreaks rest (c :: acc)

/-- Python `content.splitlines()` (source line 45). -/
def splitlines (s : String) : List String :=
  splitOnBreaks (normNewlines s.data) []

/-- Python `str.split('/')`: fields between the separators, keeping empty
fields, so the result is never the empty list. -/
def splitOnSlash : List Char → List Char → List String
  | [], acc => [acc.reverse.asString]
  | c :: rest, acc =>
    if c = '/' then acc.reverse.asString :: splitOnSlash rest []
    else splitOnSlash rest (c :: acc)

/-- Python `repo_url.split('/')[-1]` (source line 56). -/
def lastSlashSegment (s : String) : String :=
  (splitOnSlash s.data []).getLastD ""

/-- Python `str.replace('.git', '')` specialised to the source's call on
line 56: scan left to right and delete every non-overlapping occurrence
of `".git"`. -/
def dropGit : List Char → List Char
  | '.' :: 'g' :: 'i' :: 't' :: rest => dropGit rest
  | c :: rest => c :: dropGit rest
  | [] => []

/-- Source line 56: `repo_name = repo_url.split('/')[-1].replace('.git', '')`. -/
def repo_name (repo_url : String) : String :=
  (dropGit (lastSlashSegment repo_url).data).asString

/-- Source line 57: `repo_path = os.path.join(CLONED_REPOS_DIR, repo_name)`;
the right operand is a last URL segment, hence never an absolute path, so
the join is plain concatenation with a separator. -/
def repo_path (repo_url : String) : String :=
  CLONED_REPOS_DIR ++ "/" ++ repo_name repo_url

/-- Python `pathlib.Path(p).name`: the last path component, with empty
and single-dot components collapsed away as `pathlib` does. -/
def pyName (s : String) : String :=
  ((splitOnSlash s.data []).filter (fun seg => seg != "" && seg != ".")).getLastD ""

/-- Python `pathlib.PurePath.suffix` of a path component: the part of the
name from its last dot on, empty when the name has no dot, starts with
its only dot, or ends with the dot. -/
def pySuffixOfName (name : List Char) : List Char :=
  match List.findIdx? (fun c => c == '.') name.reverse with
  | none => []
  | some j =>
    let i := name.length - 1 - j
    if 0 < i ∧ i < name.length - 1 then name.drop i else []

/-- Python `Path(file_path).suffix` as used on source line 83. -/
def pySuffix (s : String) : String :=
  (pySuffixOfName (pyName s).data).asString

/-- Python `str.lower()` on the suffix (source line 83); the recognized
extensions are ASCII, for which `Char.toLower` agrees with Python. -/
def mapToLower (s : String) : String :=
  (s.data.map Char.toLower).asString

/-- Source line 83: `Path(file_path).suffix.lower()`. -/
def suffixLower (s : String) : String :=
  mapToLower (pySuffix s)

/-! ## Data model -/

/-- One output row (source lines 97-108): the dict
`{"cve_id": ..., "file_path": ..., "code": ..., "label": 0 or 1}`. -/
structure CodeRecord where
  cve_id : String
  file_path : String
  code : String
  label : Nat
  deriving DecidableEq, Repr

/-- A GitPython `Diff` entry as consumed by the loop on source lines
78-84: its `change_type` and `a_path` attributes. -/
structure DiffItem where
  change_type : String
  a_path : String
  deriving DecidableEq, Repr

/-- A GitPython commit as consumed by the source: only its parent list is
read (lines 69-73), each parent being addressed by its `hexsha`. -/
structure Commit where
  parents : List String
  deriving DecidableEq, Repr

/-- A GitPython blob as consumed by `get_file_content` (lines 34-40): a
declared `size` and a `data_stream.read()` call that yields raw bytes or
raises. -/
structure Blob where
  size : Nat
  read : Except String (List Nat)

/-- The external environment of one local repository directory: the
GitPython backend and the filesystem, with every library call that can
raise a Python exception modelled as an `Except String` value (the
string is the exception's message).

* `pathExists` — `os.path.exists(repo_path)` (line 62);
* `clone` — `Repo.clone_from(repo_url, repo_path)` (line 64), a function
  of the URL being cloned;
* `openRepo` — the `Repo(repo_path)` constructor (lines 32, 66);
* `commitOf` — `repo.commit(commit_hash)` (lines 33, 67);
* `blobAt` — `commit.tree[file_path]` at a commit reference (line 34);
* `decode` — `chardet.detect` followed by `raw_data.decode(encoding,
  errors='replace')` (lines 41-42), a pure function of the raw bytes;
* `diffOf` — `parent_commit.diff(commit)` (line 76).  Iterating the
  returned index and reading each entry's attributes happens inside the
  row-level `try`, and those attribute accesses are library calls that
  may raise (e.g. path decoding), so each entry is modelled as either a
  well-formed `DiffItem` or the exception raised when that entry is
  processed. -/
structure World where
  pathExists : Bool
  clone : String → Except String Unit
  openRepo : Except String Unit
  commitOf : String → Except String Commit
  blobAt : String → String → Except String Blob
  decode : List Nat → Except String String
  diffOf : String → String → Except String (List (Except String DiffItem))

/-! ## Content Retriever: `get_file_content` (source lines 29-52) -/

/-- The body of the `try` block of `get_file_content` (lines 31-49):
each fallible library call propagates its exception, `Except.ok none`
is an early `return None` (file too large or too short), and
`Except.ok (some content)` is the successful `return content`. -/
def get_file_content_attempt (w : World) (file_path commit_hash : String) :
    Except String (Option String) :=
  match w.openRepo with
  | Except.error e => Except.error e
  | Except.ok _ =>
    match w.commitOf commit_hash with
    | Except.error e => Except.error e
    | Except.ok _ =>
      match w.blobAt commit_hash file_path with
      | Except.error e => Except.error e
      | Except.ok blob =>
        if blob.size > MAX_FILE_SIZE then Except.ok none
        else
          match blob.read with
          | Except.error e => Except.error e
          | Except.ok raw =>
            match w.decode raw with
            | Except.error e => Except.error e
            | Except.ok content =>
              if (splitlines content).length < MIN_CODE_LENGTH then Except.ok none
              else Except.ok (some content)

/-- `get_file_content` with its log: the `except` handler (lines 50-52)
maps any exception to `None` after logging a warning naming the path and
the commit reference. -/
def get_file_content_run (w : World) (file_path commit_hash : String) :
    Option String × List String :=
  match get_file_content_attempt w file_path commit_hash with
  | Except.ok r => (r, [])
  | Except.error e =>
    (none, [s!"WARNING: Error reading {file_path} at {commit_hash}: {e}"])

/-- The return value of `get_file_content`. -/
def get_file_content (w : World) (file_path commit_hash : String) : Option String :=
  (get_file_content_run w file_path commit_hash).1

/-! ## Pair Builder: `process_repository` (source lines 54-113) -/

/-- The body of one iteration of the per-file loop after the
`change_type` and extension gates (source lines 86-108): retrieve both
versions, skip when either is falsy (`None` or the empty string — Python
`not x`), skip when they are equal, otherwise append the two labelled
records. -/
def pairPhase (w : World) (cve_id file_path parent_sha commit_hash : String) :
    List CodeRecord × List String :=
  let vres := get_file_content_run w file_path parent_sha
  let fres := get_file_content_run w file_path commit_hash
  let logs := vres.2 ++ fres.2
  match vres.1, fres.1 with
  | some vulnerable_code, some fixed_code =>
    if vulnerable_code.isEmpty || fixed_code.isEmpty then ([], logs)
    else if vulnerable_code = fixed_code then ([], logs)
    else
      ([{ cve_id := cve_id, file_path := file_path, code := vulnerable_code, label := 0 },
        { cve_id := cve_id, file_path := file_path, code := fixed_code, label := 1 }],
       logs)
  | _, _ => ([], logs)

/-- One iteration of the per-file loop (source lines 78-108). -/
def processFile_run (w : World) (cve_id parent_sha commit_hash : String)
    (item : DiffItem) : List CodeRecord × List String :=
  if item.change_type ≠ "M" then ([], [])
  else if suffixLower item.a_path ∉ VALID_EXTENSIONS then ([], [])
  else pairPhase w cve_id item.a_path parent_sha commit_hash

/-- The per-file loop (source lines 78-108) over the diff entries:
`acc`/`logs` are the records and log lines accumulated so far; an
exception raised while processing an entry aborts the loop and is
reported in the third component, leaving the accumulated records
intact (Python's `results` list survives the raised exception). -/
def runLoop (w : World) (cve_id parent_sha commit_hash : String) :
    List (Except String DiffItem) → List CodeRecord → List String →
    List CodeRecord × List String × Option String
  | [], acc, logs => (acc, logs, none)
  | Except.error e :: _, acc, logs => (acc, logs, some e)
  | Except.ok item :: rest, acc, logs =>
    let r := processFile_run w cve_id parent_sha commit_hash item
    runLoop w cve_id parent_sha commit_hash rest (acc ++ r.1) (logs ++ r.2)

/-- The body of `process_repository` (source lines 58-113) at a fixed
local repository directory `w`.  Every exception raised inside the `try`
block (lines 60-108) is caught by the handler on lines 110-111, which
logs an error naming `repo_url`; the function then returns whatever is
in `results` at that point (line 113 sits after the handler), which is
empty for pre-loop failures but keeps already-appended pairs for
failures inside the loop. -/
def processRepoCore (w : World) (repo_url cve_id commit_hash : String) :
    List CodeRecord × List String :=
  let cloneLogs : List String :=
    if w.pathExists then [] else [s!"INFO: Cloning {repo_url}"]
  match (if w.pathExists then Except.ok () else w.clone repo_url) with
  | Except.error e => ([], cloneLogs ++ [s!"ERROR: Error processing {repo_url}: {e}"])
  | Except.ok _ =>
    match w.openRepo with
    | Except.error e => ([], cloneLogs ++ [s!"ERROR: Error processing {repo_url}: {e}"])
    | Except.ok _ =>
      match w.commitOf commit_hash with
      | Except.error e => ([], cloneLogs ++ [s!"ERROR: Error processing {repo_url}: {e}"])
      | Except.ok commit =>
        match commit.parents with
        | [] => ([], cloneLogs ++ [s!"WARNING: No parent commit for {commit_hash}"])
        | parent_sha :: _ =>
          match w.diffOf parent_sha commit_hash with
          | Except.error e =>
            ([], cloneLogs ++ [s!"ERROR: Error processing {repo_url}: {e}"])
          | Except.ok items =>
            let t := runLoop w cve_id parent_sha commit_hash items [] []
            (t.1,
             cloneLogs ++ t.2.1 ++
               match t.2.2 with
               | none => []
               | some e => [s!"ERROR: Error processing {repo_url}: {e}"])

/-- `process_repository` with its log.  The environment `fs` maps a
local directory to the `World` behind it; the source derives the
directory from the URL on lines 56-57 and interacts with the backend
only through it. -/
def process_repository_run (fs : String → World) (repo_url cve_id commit_hash : String) :
    List CodeRecord × List String :=
  processRepoCore (fs (repo_path repo_url)) repo_url cve_id commit_hash

/-- The return value of `process_repository`. -/
def process_repository (fs : String → World) (repo_url cve_id commit_hash : String) :
    List CodeRecord :=
  (process_repository_run fs repo_url cve_id commit_hash).1

/-- Source line 62: the clone is attempted exactly when
`not os.path.exists(repo_path)`. -/
def clone_needed (fs : String → World) (repo_url : String) : Bool :=
  !(fs (repo_path repo_url)).pathExists

/-- Shape of one emitted pair of `process_repository`: a two-record block
with the row's identifier, a common path, label 0 with the parent-commit
text, label 1 with the fix-commit text, and distinct texts. -/
def PairProp (w : World) (cve_id parent_sha commit_hash : String)
    (l : List CodeRecord) : Prop :=
  ∃ path v f,
    l = [{ cve_id := cve_id, file_path := path, code := v, label := 0 },
         { cve_id := cve_id, file_path := path, code := f, label := 1 }] ∧
    v ≠ f ∧
    get_file_content w path parent_sha = some v ∧
    get_file_content w path commit_hash = some f

/-- Modelled from the claim's words (C9 hypothesis): a URL path segment
with one trailing `".git"` removed, left unchanged when it does not end
with `".git"`. -/
def stripTrailingGit (s : String) : String :=
  if s.data.reverse.take 4 = ['t', 'i', 'g', '.'] then
    (s.data.reverse.drop 4).reverse.asString
  else s

/-! ## Concrete instances used by the witnesses -/

/-- A text of `n` lines, each holding the single character `c`. -/
def charLines (c : Char) : Nat → String
  | 0 => ""
  | n + 1 => String.mk [c, '\n'] ++ charLines c n

/-- A 50-line text, exactly at the minimum line count. -/
def demoText : String := charLines 'x' 50

/-- A 50-line "vulnerable" text. -/
def textA : String := charLines 'a' 50

/-- A 50-line "fixed" text differing from `textA`. -/
def textB : String := charLines 'b' 50

/-- A modified `.py` diff entry. -/
def itemA : DiffItem := { change_type := "M", a_path := "a.py" }

/-- An environment where everything succeeds and every retrieval decodes
to the same 50-line text. -/
def demoWorldOK : World where
  pathExists := true
  clone := fun _ => Except.ok ()
  openRepo := Except.ok ()
  commitOf := fun _ => Except.ok { parents := ["p0"] }
  blobAt := fun _ _ => Except.ok { size := 10, read := Except.ok [] }
  decode := fun _ => Except.ok demoText
  diffOf := fun _ _ => Except.ok []

/-- An environment whose diff holds one well-formed modified entry
followed by an entry whose processing raises `"boom"`; the parent commit
`"p0"` yields `textA` and any other commit yields `textB`. -/
def w3 : World where
  pathExists := true
  clone := fun _ => Except.ok ()
  openRepo := Except.ok ()
  commitOf := fun _ => Except.ok { parents := ["p0"] }
  blobAt := fun ch _ =>
    Except.ok { size := 10, read := Except.ok (if ch = "p0" then [0] else [1]) }
  decode := fun raw => Except.ok (if raw = [0] then textA else textB)
  diffOf := fun _ _ => Except.ok [Except.ok itemA, Except.error "boom"]

/-- An environment where the local copy is absent and cloning raises. -/
def wCloneFail : World where
  pathExists := false
  clone := fun _ => Except.error "net down"
  openRepo := Except.error "unreachable"
  commitOf := fun _ => Except.error "unreachable"
  blobAt := fun _ _ => Except.error "unreachable"
  decode := fun _ => Except.error "unreachable"
  diffOf := fun _ _ => Except.error "unreachable"

/-- An environment where opening the repository raises. -/
def wErr : World where
  pathExists := true
  clone := fun _ => Except.ok ()
  openRepo := Except.error "io fail"
  commitOf := fun _ => Except.error "io fail"
  blobAt := fun _ _ => Except.error "io fail"
  decode := fun _ => Except.error "io fail"
  diffOf := fun _ _ => Except.error "io fail"

/-- An environment whose commit is a root commit (no parents). -/
def wNoParent : World where
  pathExists := true
  clone := fun _ => Except.ok ()
  openRepo := Except.ok ()
  commitOf := fun _ => Except.ok { parents := [] }
  blobAt := fun _ _ => Except.ok { size := 10, read := Except.ok [] }
  decode := fun _ => Except.ok demoText
  diffOf := fun _ _ => Except.ok []

/-- A blob one byte over the configured maximum size. -/
def bigBlob : Blob := { size := 100001, read := Except.ok [] }

/-- An environment whose blobs all exceed the maximum size. -/
def wBig : World where
  pathExists := true
  clone := fun _ => Except.ok ()
  openRepo := Except.ok ()
  commitOf := fun _ => Except.ok { parents := ["p0"] }
  blobAt := fun _ _ => Except.ok bigBlob
  decode := fun _ => Except.ok demoText
  diffOf := fun _ _ => Except.ok []

/-- An environment whose retrievals decode to a one-line text, below the
minimum line count. -/
def wShort : World where
  pathExists := true
  clone := fun _ => Except.ok ()
  openRepo := Except.ok ()
  commitOf := fun _ => Except.ok { parents := ["p0"] }
  blobAt := fun _ _ => Except.ok { size := 10, read := Except.ok [] }
  decode := fun _ => Except.ok "short"
  diffOf := fun _ _ => Except.ok []


/-! ## Helper lemmas -/


/-- A successfully retrieved text passed the minimum-line-count gate. -/
theorem gfc_some_minLines (w : World) (fp ch s : String)
    (h : get_file_content w fp ch = some s) :
    MIN_CODE_LENGTH ≤ (splitlines s).length := by
  have heq : get_file_content_attempt w fp ch = Except.ok (some s) := by
    unfold get_file_content get_file_content_run at h
    rcases ha : get_file_content_attempt w fp ch with e | r <;> rw [ha] at h <;> simp_all
  unfold get_file_content_attempt at heq
  rcases ho : w.openRepo with e | u <;> rw [ho] at heq <;> simp only [] at heq
  · exact absurd heq (by simp)
  · rcases hc : w.commitOf ch with e | c <;> rw [hc] at heq <;> simp only [] at heq
    · exact absurd heq (by simp)
    · rcases hb : w.blobAt ch fp with e | blob <;> rw [hb] at heq <;> simp only [] at heq
      · exact absurd heq (by simp)
      · by_cases hs : blob.size > MAX_FILE_SIZE
        · rw [if_pos hs] at heq; exact absurd heq (by simp)
        · rw [if_neg hs] at heq
          rcases hr : blob.read with e | raw <;> rw [hr] at heq <;> simp only [] at heq
          · exact absurd heq (by simp)
          · rcases hd : w.decode raw with e | content <;> rw [hd] at heq <;> simp only [] at heq
            · exact absurd heq (by simp)
            · by_cases hl : (splitlines content).length < MIN_CODE_LENGTH
              · rw [if_pos hl] at heq; exact absurd heq (by simp)
              · rw [if_neg hl] at heq
                have : content = s := by simpa using heq
                subst this
                exact Nat.le_of_not_lt hl

/-- One loop iteration yields nothing or a well-formed pair. -/
theorem processFile_cases (w : World) (cve ps ch : String) (item : DiffItem) :
    (processFile_run w cve ps ch item).1 = [] ∨
      PairProp w cve ps ch (processFile_run w cve ps ch item).1 := by
  unfold processFile_run
  by_cases hM : item.change_type ≠ "M"
  · simp [hM]
  · rw [if_neg (by simpa using hM)]
    by_cases hE : suffixLower item.a_path ∉ VALID_EXTENSIONS
    · simp [hE]
    · rw [if_neg (by simpa using hE)]
      unfold pairPhase
      rcases hv : (get_file_content_run w item.a_path ps).1 with _ | v <;>
        rcases hf : (get_file_content_run w item.a_path ch).1 with _ | f <;>
          simp only [hv, hf]
      · exact Or.inl trivial
      · exact Or.inl trivial
      · exact Or.inl trivial
      · by_cases he : (v.isEmpty || f.isEmpty) = true
        · simp [he]
        · rw [if_neg he]
          by_cases hvf : v = f
          · simp [hvf]
          · right
            rw [if_neg hvf]
            exact ⟨item.a_path, v, f, rfl, hvf, hv, hf⟩



/-- The per-file loop appends zero-or-pair blocks to the accumulator. -/
theorem runLoop_spec (w : World) (cve ps ch : String) :
    ∀ (items : List (Except String DiffItem)) (acc : List CodeRecord) (logs : List String),
      ∃ chunks : List (List CodeRecord),
        (runLoop w cve ps ch items acc logs).1 = acc ++ chunks.flatten ∧
        ∀ l ∈ chunks, PairProp w cve ps ch l := by
  intro items
  induction items with
  | nil => intro acc logs; exact ⟨[], by simp [runLoop], by simp⟩
  | cons x rest ih =>
    intro acc logs
    rcases x with e | item
    · exact ⟨[], by simp [runLoop], by simp⟩
    · obtain ⟨chunks, h1, h2⟩ :=
        ih (acc ++ (processFile_run w cve ps ch item).1)
           (logs ++ (processFile_run w cve ps ch item).2)
      rcases processFile_cases w cve ps ch item with hnil | hp
      · refine ⟨chunks, ?_, h2⟩
        simp only [runLoop]
        rw [h1, hnil]
        simp
      · refine ⟨(processFile_run w cve ps ch item).1 :: chunks, ?_, ?_⟩
        · simp only [runLoop]
          rw [h1]
          simp [List.append_assoc]
        · intro l hl
          rcases List.mem_cons.mp hl with rfl | hl
          · exact hp
          · exact h2 l hl

/-- Decomposition of a `process_repository` result into pair blocks, with
the first parent of the resolved commit identified when any block exists. -/
theorem process_chunks (fs : String → World) (u cve ch : String) :
    ∃ (chunks : List (List CodeRecord)) (psha : String),
      (process_repository_run fs u cve ch).1 = chunks.flatten ∧
      (chunks = [] ∨ ∃ commit rest,
        (fs (repo_path u)).commitOf ch = Except.ok commit ∧
        commit.parents = psha :: rest) ∧
      ∀ l ∈ chunks, PairProp (fs (repo_path u)) cve psha ch l := by
  unfold process_repository_run processRepoCore
  rcases h0 : (if (fs (repo_path u)).pathExists then Except.ok () else (fs (repo_path u)).clone u)
    with e | u0 <;> simp only []
  · exact ⟨[], "", by simp, Or.inl rfl, by simp⟩
  · rcases ho : (fs (repo_path u)).openRepo with e | u1 <;> simp only []
    · exact ⟨[], "", by simp, Or.inl rfl, by simp⟩
    · rcases hc : (fs (repo_path u)).commitOf ch with e | commit <;> simp only []
      · exact ⟨[], "", by simp, Or.inl rfl, by simp⟩
      · rcases hp : commit.parents with _ | ⟨psha, rest⟩ <;> simp only []
        · exact ⟨[], "", by simp, Or.inl rfl, by simp⟩
        · rcases hd : (fs (repo_path u)).diffOf psha ch with e | items <;> simp only []
          · exact ⟨[], "", by simp, Or.inl rfl, by simp⟩
          · obtain ⟨chunks, h1, h2⟩ := runLoop_spec (fs (repo_path u)) cve psha ch items [] []
            exact ⟨chunks, psha, by simpa using h1, Or.inr ⟨commit, rest, rfl, hp⟩, h2⟩



/-- The greedy scan steps over a head character that does not begin an
occurrence of `".git"`. -/
theorem dropGit_cons_noGit (c : Char) (l : List Char)
    (h : ¬(c = '.' ∧ l.take 3 = ['g', 'i', 't'])) :
    dropGit (c :: l) = c :: dropGit l := by
  rw [dropGit.eq_def]
  split
  · next rest heq =>
    exfalso
    apply h
    simp only [List.cons.injEq] at heq
    obtain ⟨h1, h2⟩ := heq
    refine ⟨h1, ?_⟩
    subst h2
    rfl
  · next c2 rest2 heq =>
    simp only [List.cons.injEq] at heq
    obtain ⟨rfl, rfl⟩ := heq
    rfl
  · next heq => simp at heq

/-- Appending `".git"` cannot create an occurrence of `"git"` in the
first three characters where there was none. -/
theorem take3_append_git (l : List Char) (h : l.take 3 ≠ ['g', 'i', 't']) :
    (l ++ ['.', 'g', 'i', 't']).take 3 ≠ ['g', 'i', 't'] := by
  rcases l with _ | ⟨a, _ | ⟨b, _ | ⟨d, r⟩⟩⟩
  · simp [List.take]
  · simp [List.take]
  · simp [List.take]
  · simpa [List.take] using h

/-- Python's `replace('.git', '')` gives the same result on `u` and on
`u ++ ".git"`: no occurrence of `".git"` can straddle the boundary, and
the appended suffix itself is always removed. -/
theorem dropGit_append (u : List Char) :
    dropGit (u ++ ['.', 'g', 'i', 't']) = dropGit u := by
  have key : ∀ (n : Nat) (u : List Char), u.length = n →
      dropGit (u ++ ['.', 'g', 'i', 't']) = dropGit u := by
    intro n
    induction n using Nat.strong_induction_on with
    | _ n ih =>
      intro u hn
      rcases u with _ | ⟨c, rest⟩
      · decide
      · by_cases hgit : c = '.' ∧ rest.take 3 = ['g', 'i', 't']
        · obtain ⟨rfl, h3⟩ := hgit
          obtain ⟨rest3, rfl⟩ : ∃ r3, rest = 'g' :: 'i' :: 't' :: r3 := by
            rcases rest with _ | ⟨a, _ | ⟨b, _ | ⟨d, r⟩⟩⟩ <;> simp [List.take] at h3
            obtain ⟨rfl, rfl, rfl⟩ := h3
            exact ⟨r, rfl⟩
          show dropGit ('.' :: 'g' :: 'i' :: 't' :: (rest3 ++ ['.', 'g', 'i', 't'])) =
            dropGit ('.' :: 'g' :: 'i' :: 't' :: rest3)
          show dropGit (rest3 ++ ['.', 'g', 'i', 't']) = dropGit rest3
          exact ih rest3.length (by simp at hn; omega) rest3 rfl
        · have hgit2 : ¬(c = '.' ∧ (rest ++ ['.', 'g', 'i', 't']).take 3 = ['g', 'i', 't']) := by
            rintro ⟨rfl, h3⟩
            rw [Classical.not_and_iff_or_not_not] at hgit
            rcases hgit with hc | ht
            · exact hc rfl
            · exact take3_append_git rest ht h3
          rw [List.cons_append, dropGit_cons_noGit c _ hgit2, dropGit_cons_noGit c rest hgit]
          rw [ih rest.length (by simp at hn; omega) rest rfl]
  exact key u.length u rfl



/-- `replace('.git', '')` is insensitive to one trailing `".git"`. -/
theorem dropGit_strip (s : String) :
    dropGit s.data = dropGit (stripTrailingGit s).data := by
  unfold stripTrailingGit
  by_cases h : s.data.reverse.take 4 = ['t', 'i', 'g', '.']
  · rw [if_pos h]
    have hdecomp : s.data = (s.data.reverse.drop 4).reverse ++ ['.', 'g', 'i', 't'] := by
      conv_lhs => rw [← s.data.reverse_reverse,
        ← List.take_append_drop 4 s.data.reverse, List.reverse_append, h]
      simp
    conv_lhs => rw [hdecomp]
    exact dropGit_append _
  · rw [if_neg h]

/-- When the local copy exists, the records component of
`processRepoCore` does not depend on the URL (which then only feeds log
text). -/
theorem processRepoCore_fst_url (w : World) (u1 u2 cve ch : String)
    (hpe : w.pathExists = true) :
    (processRepoCore w u1 cve ch).1 = (processRepoCore w u2 cve ch).1 := by
  unfold processRepoCore
  simp only [hpe, if_true]
  rcases ho : w.openRepo with e | u <;> simp only [] <;> try rfl
  rcases hc : w.commitOf ch with e | commit <;> simp only [] <;> try rfl
  rcases hp : commit.parents with _ | ⟨psha, rest⟩ <;> simp only [] <;> try rfl
  rcases hd : w.diffOf psha ch with e | items <;> simp only []

/-- A loop iteration whose retrievals do not both succeed emits nothing. -/
theorem processFile_fst_nil (w : World) (cve ps ch : String) (item : DiffItem)
    (h : get_file_content w item.a_path ps = none ∨
         get_file_content w item.a_path ch = none) :
    (processFile_run w cve ps ch item).1 = [] := by
  unfold processFile_run
  by_cases hM : item.change_type ≠ "M"
  · simp [hM]
  · rw [if_neg (by simpa using hM)]
    by_cases hE : suffixLower item.a_path ∉ VALID_EXTENSIONS
    · simp [hE]
    · rw [if_neg (by simpa using hE)]
      unfold pairPhase
      unfold get_file_content at h
      rcases hv : (get_file_content_run w item.a_path ps).1 with _ | v <;>
        rcases hf : (get_file_content_run w item.a_path ch).1 with _ | f <;>
          simp only [hv, hf] <;> try rfl
      rcases h with h | h
      · rw [hv] at h; exact absurd h (by simp)
      · rw [hf] at h; exact absurd h (by simp)

/-- An exception at a diff entry ends the loop, keeping the records and
logs accumulated from the entries before it. -/
theorem runLoop_error_prefix (w : World) (cve ps ch : String) :
    ∀ (pre : List DiffItem) (e : String) (rest : List (Except String DiffItem))
      (acc : List CodeRecord) (logs : List String),
      runLoop w cve ps ch (pre.map Except.ok ++ Except.error e :: rest) acc logs =
        (acc ++ (pre.map (fun it => (processFile_run w cve ps ch it).1)).flatten,
         logs ++ (pre.map (fun it => (processFile_run w cve ps ch it).2)).flatten,
         some e) := by
  intro pre
  induction pre with
  | nil => intro e rest acc logs; simp [runLoop]
  | cons it pre ih =>
    intro e rest acc logs
    simp only [List.map_cons, List.cons_append, runLoop, List.append_eq]
    rw [ih]
    simp [List.append_assoc]



/-! ## Claims -/

/-- C1: every result of `process_repository` decomposes into complete
pairs: two records emitted together or not at all, sharing the row's
`cve_id` and a common `file_path`, with label 0 carrying the text
retrieved at the first parent commit and label 1 carrying the text
retrieved at the fix commit. -/
theorem pairs_emitted_complete (fs : String → World) (repo_url cve_id commit_hash : String) :
    ∃ (chunks : List (List CodeRecord)) (parent_sha : String),
      process_repository fs repo_url cve_id commit_hash = chunks.flatten ∧
      (chunks = [] ∨ ∃ commit rest,
        (fs (repo_path repo_url)).commitOf commit_hash = Except.ok commit ∧
        commit.parents = parent_sha :: rest) ∧
      ∀ l ∈ chunks, ∃ path v f,
        l = [{ cve_id := cve_id, file_path := path, code := v, label := 0 },
             { cve_id := cve_id, file_path := path, code := f, label := 1 }] ∧
        get_file_content (fs (repo_path repo_url)) path parent_sha = some v ∧
        get_file_content (fs (repo_path repo_url)) path commit_hash = some f := by
  obtain ⟨chunks, psha, h1, h2, h3⟩ := process_chunks fs repo_url cve_id commit_hash
  refine ⟨chunks, psha, h1, h2, fun l hl => ?_⟩
  obtain ⟨p, v, f, hshape, hvf, hv, hf⟩ := h3 l hl
  exact ⟨p, v, f, hshape, hv, hf⟩

/-- C1 witness at a concrete environment. -/
theorem pairs_emitted_complete_witness :
    ∃ (chunks : List (List CodeRecord)) (parent_sha : String),
      process_repository (fun _ => w3) "u" "CVE-1" "c0" = chunks.flatten ∧
      (chunks = [] ∨ ∃ commit rest,
        ((fun _ => w3) (repo_path "u")).commitOf "c0" = Except.ok commit ∧
        commit.parents = parent_sha :: rest) ∧
      ∀ l ∈ chunks, ∃ path v f,
        l = [{ cve_id := "CVE-1", file_path := path, code := v, label := 0 },
             { cve_id := "CVE-1", file_path := path, code := f, label := 1 }] ∧
        get_file_content ((fun _ => w3) (repo_path "u")) path parent_sha = some v ∧
        get_file_content ((fun _ => w3) (repo_path "u")) path "c0" = some f :=
  pairs_emitted_complete (fun _ => w3) "u" "CVE-1" "c0"

/-- C2: within every emitted pair the two code texts differ, and a
changed file whose before-text equals its after-text verbatim produces
no records. -/
theorem pair_codes_differ (fs : String → World) (repo_url cve_id commit_hash : String) :
    (∃ chunks : List (List CodeRecord),
      process_repository fs repo_url cve_id commit_hash = chunks.flatten ∧
      ∀ l ∈ chunks, ∃ path v f,
        l = [{ cve_id := cve_id, file_path := path, code := v, label := 0 },
             { cve_id := cve_id, file_path := path, code := f, label := 1 }] ∧
        v ≠ f) ∧
    (∀ (w : World) (parent_sha : String) (item : DiffItem) (s : String),
      get_file_content w item.a_path parent_sha = some s →
      get_file_content w item.a_path commit_hash = some s →
      (processFile_run w cve_id parent_sha commit_hash item).1 = []) := by
  constructor
  · obtain ⟨chunks, psha, h1, _, h3⟩ := process_chunks fs repo_url cve_id commit_hash
    refine ⟨chunks, h1, fun l hl => ?_⟩
    obtain ⟨p, v, f, hshape, hvf, _, _⟩ := h3 l hl
    exact ⟨p, v, f, hshape, hvf⟩
  · intro w parent_sha item s hv hf
    unfold processFile_run
    by_cases hM : item.change_type ≠ "M"
    · simp [hM]
    · rw [if_neg (by simpa using hM)]
      by_cases hE : suffixLower item.a_path ∉ VALID_EXTENSIONS
      · simp [hE]
      · rw [if_neg (by simpa using hE)]
        unfold pairPhase
        unfold get_file_content at hv hf
        simp only [hv, hf]
        by_cases he : (s.isEmpty || s.isEmpty) = true
        · simp [he]
        · rw [if_neg he]
          simp

/-- C2 witness: a file whose two versions retrieve the same 50-line text
is skipped. -/
theorem pair_codes_differ_witness :
    (processFile_run demoWorldOK "CVE-1" "p0" "c0" itemA).1 = [] :=
  (pair_codes_differ (fun _ => demoWorldOK) "u" "CVE-1" "c0").2
    demoWorldOK "p0" itemA demoText rfl rfl

/-- C3 counterexample: in environment `w3` the diff raises `"boom"` on
its second entry after one pair was already appended; the exception is
caught and logged at row level, yet `process_repository` returns the
non-empty accumulated pair rather than an empty sequence. -/
theorem row_error_nonempty_counterexample :
    (process_repository_run (fun _ => w3) "u" "CVE-1" "c0").2 =
      ["ERROR: Error processing u: boom"] ∧
    process_repository (fun _ => w3) "u" "CVE-1" "c0" =
      [{ cve_id := "CVE-1", file_path := "a.py", code := textA, label := 0 },
       { cve_id := "CVE-1", file_path := "a.py", code := textB, label := 1 }] ∧
    process_repository (fun _ => w3) "u" "CVE-1" "c0" ≠ [] :=
  ⟨rfl, rfl, by decide⟩

/-- C3 (amended): the row-level handler catches the exception and logs
it with the repository location, and the function returns the records
accumulated before the exception was raised: an exception before the
per-file loop (for example a clone failure) yields an empty sequence,
while an exception at a later diff entry returns exactly the pairs built
from the entries already processed. -/
theorem row_error_returns_accumulated (fs : String → World)
    (repo_url cve_id commit_hash : String) :
    ((fs (repo_path repo_url)).pathExists = false →
      (∃ e, (fs (repo_path repo_url)).clone repo_url = Except.error e) →
      process_repository fs repo_url cve_id commit_hash = [] ∧
      ∃ e : String, (process_repository_run fs repo_url cve_id commit_hash).2 =
        [s!"INFO: Cloning {repo_url}", s!"ERROR: Error processing {repo_url}: {e}"]) ∧
    (∀ (w : World) (cve ps ch : String) (pre : List DiffItem) (e : String)
        (rest : List (Except String DiffItem)),
      runLoop w cve ps ch (pre.map Except.ok ++ Except.error e :: rest) [] [] =
        ((pre.map (fun it => (processFile_run w cve ps ch it).1)).flatten,
         (pre.map (fun it => (processFile_run w cve ps ch it).2)).flatten,
         some e)) := by
  constructor
  · rintro hpe ⟨e, he⟩
    unfold process_repository process_repository_run processRepoCore
    simp only [hpe, Bool.false_eq_true, if_false, he]
    exact ⟨by simp, e, by simp⟩
  · intro w cve ps ch pre e rest
    simpa using runLoop_error_prefix w cve ps ch pre e rest [] []

/-- C3 amended witness: a failing clone yields no records, and a loop
aborted by an exception after one processed entry keeps that entry's
pair. -/
theorem row_error_returns_accumulated_witness :
    process_repository (fun _ => wCloneFail) "badurl" "CVE-1" "c0" = [] ∧
    runLoop w3 "CVE-1" "p0" "c0"
        ([itemA].map Except.ok ++ Except.error "boom" :: []) [] [] =
      (([itemA].map (fun it => (processFile_run w3 "CVE-1" "p0" "c0" it).1)).flatten,
       ([itemA].map (fun it => (processFile_run w3 "CVE-1" "p0" "c0" it).2)).flatten,
       some "boom") :=
  ⟨((row_error_returns_accumulated (fun _ => wCloneFail) "badurl" "CVE-1" "c0").1
      rfl ⟨"net down", rfl⟩).1,
   (row_error_returns_accumulated (fun _ => w3) "u" "x" "y").2
      w3 "CVE-1" "p0" "c0" [itemA] "boom" []⟩

/-- C4: `get_file_content` is total: every exception of its try-block is
mapped to `None` with a warning naming the path and the commit
reference, and a success returns the retrieved value with no log. -/
theorem retriever_never_raises (w : World) (file_path commit_hash : String) :
    (∀ e, get_file_content_attempt w file_path commit_hash = Except.error e →
      get_file_content_run w file_path commit_hash =
        (none, [s!"WARNING: Error reading {file_path} at {commit_hash}: {e}"])) ∧
    (∀ r, get_file_content_attempt w file_path commit_hash = Except.ok r →
      get_file_content_run w file_path commit_hash = (r, [])) := by
  constructor <;> intro x hx <;> unfold get_file_content_run <;> rw [hx]

/-- C4 witness: a raising `Repo` constructor maps to `None` plus the
warning. -/
theorem retriever_never_raises_witness :
    get_file_content_run wErr "a.py" "c0" =
      (none, ["WARNING: Error reading a.py at c0: io fail"]) :=
  (retriever_never_raises wErr "a.py" "c0").1 "io fail" rfl

/-- C5: a commit with no parent makes `process_repository` return an
empty sequence, logging exactly the warning that identifies the
commit. -/
theorem no_parent_empty (fs : String → World) (repo_url cve_id commit_hash : String)
    (commit : Commit)
    (hpe : (fs (repo_path repo_url)).pathExists = true)
    (hopen : (fs (repo_path repo_url)).openRepo = Except.ok ())
    (hcommit : (fs (repo_path repo_url)).commitOf commit_hash = Except.ok commit)
    (hpar : commit.parents = []) :
    process_repository_run fs repo_url cve_id commit_hash =
      ([], [s!"WARNING: No parent commit for {commit_hash}"]) := by
  unfold process_repository_run processRepoCore
  simp only [hpe, if_true, hopen, hcommit, hpar, List.nil_append]

/-- C5 witness. -/
theorem no_parent_empty_witness :
    process_repository_run (fun _ => wNoParent) "u" "CVE-1" "c0" =
      ([], ["WARNING: No parent commit for c0"]) :=
  no_parent_empty (fun _ => wNoParent) "u" "CVE-1" "c0" { parents := [] } rfl rfl rfl rfl



/-- C6: a blob whose declared size exceeds the maximum makes retrieval
return `Unavailable` without reading its bytes (the hypotheses constrain
only the declared size, never `blob.read`), and no record is then
emitted for that file at that commit, whether it serves as the parent or
the fix snapshot. -/
theorem large_blob_unavailable (w : World) (file_path commit_hash : String) (blob : Blob)
    (hopen : w.openRepo = Except.ok ())
    (hcommit : ∃ c, w.commitOf commit_hash = Except.ok c)
    (hblob : w.blobAt commit_hash file_path = Except.ok blob)
    (hsize : blob.size > MAX_FILE_SIZE) :
    get_file_content_run w file_path commit_hash = (none, []) ∧
    ∀ (cve other : String) (item : DiffItem), item.a_path = file_path →
      (processFile_run w cve other commit_hash item).1 = [] ∧
      (processFile_run w cve commit_hash other item).1 = [] := by
  have hatt : get_file_content_attempt w file_path commit_hash = Except.ok none := by
    unfold get_file_content_attempt
    obtain ⟨c, hc⟩ := hcommit
    rw [hopen, hc, hblob]
    simp only []
    rw [if_pos hsize]
  constructor
  · unfold get_file_content_run
    rw [hatt]
  · intro cve other item hpath
    have hnone : get_file_content w item.a_path commit_hash = none := by
      rw [hpath]
      simp [get_file_content, get_file_content_run, hatt]
    exact ⟨processFile_fst_nil w cve other commit_hash item (Or.inr hnone),
           processFile_fst_nil w cve commit_hash other item (Or.inl hnone)⟩

/-- C6 witness: a 100001-byte blob. -/
theorem large_blob_unavailable_witness :
    get_file_content_run wBig "a.py" "c0" = (none, []) ∧
    (processFile_run wBig "CVE-1" "p0" "c0" itemA).1 = [] :=
  ⟨(large_blob_unavailable wBig "a.py" "c0" bigBlob rfl
      ⟨{ parents := ["p0"] }, rfl⟩ rfl (by decide)).1,
   ((large_blob_unavailable wBig "a.py" "c0" bigBlob rfl
      ⟨{ parents := ["p0"] }, rfl⟩ rfl (by decide)).2 "CVE-1" "p0" itemA rfl).1⟩

/-- C7: a decoded text splitting into fewer than the minimum number of
lines is `Unavailable`; conversely every retrieved text, and hence the
code of every emitted record, has at least the minimum number of
lines. -/
theorem min_line_count_enforced :
    (∀ (w : World) (file_path commit_hash : String) (blob : Blob) (raw : List Nat)
        (content : String),
      w.openRepo = Except.ok () →
      (∃ c, w.commitOf commit_hash = Except.ok c) →
      w.blobAt commit_hash file_path = Except.ok blob →
      ¬ blob.size > MAX_FILE_SIZE →
      blob.read = Except.ok raw →
      w.decode raw = Except.ok content →
      (splitlines content).length < MIN_CODE_LENGTH →
      get_file_content w file_path commit_hash = none) ∧
    (∀ (w : World) (file_path commit_hash s : String),
      get_file_content w file_path commit_hash = some s →
      MIN_CODE_LENGTH ≤ (splitlines s).length) ∧
    (∀ (fs : String → World) (repo_url cve_id commit_hash : String) (r : CodeRecord),
      r ∈ process_repository fs repo_url cve_id commit_hash →
      MIN_CODE_LENGTH ≤ (splitlines r.code).length) := by
  refine ⟨?_, gfc_some_minLines, ?_⟩
  · intro w file_path commit_hash blob raw content hopen hcommit hblob hsize hread hdec hlen
    have hatt : get_file_content_attempt w file_path commit_hash = Except.ok none := by
      unfold get_file_content_attempt
      obtain ⟨c, hc⟩ := hcommit
      rw [hopen, hc, hblob]
      simp only []
      rw [if_neg hsize, hread]
      simp only []
      rw [hdec]
      simp only []
      rw [if_pos hlen]
    simp [get_file_content, get_file_content_run, hatt]
  · intro fs repo_url cve_id commit_hash r hr
    obtain ⟨chunks, psha, h1, _, h3⟩ := process_chunks fs repo_url cve_id commit_hash
    unfold process_repository at hr
    rw [h1] at hr
    obtain ⟨l, hl, hrl⟩ := List.mem_flatten.mp hr
    obtain ⟨p, v, f, hshape, hvf, hv, hf⟩ := h3 l hl
    subst hshape
    simp only [List.mem_cons, List.not_mem_nil, or_false] at hrl
    rcases hrl with rfl | rfl
    · exact gfc_some_minLines _ _ _ _ hv
    · exact gfc_some_minLines _ _ _ _ hf

/-- C7 witness: a one-line decode result is rejected. -/
theorem min_line_count_enforced_witness :
    get_file_content wShort "a.py" "c0" = none :=
  min_line_count_enforced.1 wShort "a.py" "c0"
    { size := 10, read := Except.ok [] } [] "short"
    rfl ⟨{ parents := ["p0"] }, rfl⟩ rfl (by decide) rfl rfl (by decide)

/-- C8: a diff entry that is not a modification, or whose (lowercased)
extension is not recognized, contributes no record and no log line. -/
theorem gate_skips_entry (w : World) (cve_id parent_sha commit_hash : String)
    (item : DiffItem)
    (h : item.change_type ≠ "M" ∨ suffixLower item.a_path ∉ VALID_EXTENSIONS) :
    processFile_run w cve_id parent_sha commit_hash item = ([], []) := by
  unfold processFile_run
  rcases h with h | h
  · rw [if_pos h]
  · by_cases hM : item.change_type ≠ "M"
    · rw [if_pos hM]
    · rw [if_neg hM, if_pos h]

/-- C8 witness: a `.md` modification and an added `.py` file are both
skipped. -/
theorem gate_skips_entry_witness :
    processFile_run demoWorldOK "CVE-1" "p0" "c0"
      { change_type := "M", a_path := "README.md" } = ([], []) ∧
    processFile_run demoWorldOK "CVE-1" "p0" "c0"
      { change_type := "A", a_path := "a.py" } = ([], []) :=
  ⟨gate_skips_entry demoWorldOK "CVE-1" "p0" "c0" _ (Or.inr (by decide)),
   gate_skips_entry demoWorldOK "CVE-1" "p0" "c0" _ (Or.inl (by decide))⟩

/-- C9: two URLs whose last path segment agrees after removing a
trailing `".git"` are mapped to the same local directory; once that
directory exists, a row with the second URL attempts no clone and its
records equal those obtained through the first URL. -/
theorem same_repo_dir_shared (u1 u2 : String)
    (h : stripTrailingGit (lastSlashSegment u1) = stripTrailingGit (lastSlashSegment u2)) :
    repo_path u1 = repo_path u2 ∧
    ∀ (fs : String → World) (cve_id commit_hash : String),
      (fs (repo_path u1)).pathExists = true →
      clone_needed fs u2 = false ∧
      process_repository fs u1 cve_id commit_hash =
        process_repository fs u2 cve_id commit_hash := by
  have hname : repo_name u1 = repo_name u2 := by
    unfold repo_name
    rw [dropGit_strip (lastSlashSegment u1), dropGit_strip (lastSlashSegment u2), h]
  have hpath : repo_path u1 = repo_path u2 := by
    unfold repo_path
    rw [hname]
  refine ⟨hpath, fun fs cve_id commit_hash hpe => ⟨?_, ?_⟩⟩
  · unfold clone_needed
    rw [← hpath, hpe]
    rfl
  · unfold process_repository process_repository_run
    rw [← hpath]
    exact processRepoCore_fst_url (fs (repo_path u1)) u1 u2 cve_id commit_hash hpe

/-- C9 witness: `".../repo.git"` and `".../repo"` share one local copy. -/
theorem same_repo_dir_shared_witness :
    repo_path "https://h/repo.git" = repo_path "https://h/repo" ∧
    clone_needed (fun _ => demoWorldOK) "https://h/repo" = false ∧
    process_repository (fun _ => demoWorldOK) "https://h/repo.git" "CVE-1" "c0" =
      process_repository (fun _ => demoWorldOK) "https://h/repo" "CVE-1" "c0" :=
  ⟨(same_repo_dir_shared "https://h/repo.git" "https://h/repo" (by decide)).1,
   ((same_repo_dir_shared "https://h/repo.git" "https://h/repo" (by decide)).2
      (fun _ => demoWorldOK) "CVE-1" "c0" rfl).1,
   ((same_repo_dir_shared "https://h/repo.git" "https://h/repo" (by decide)).2
      (fun _ => demoWorldOK) "CVE-1" "c0" rfl).2⟩

/-- C10: the extension gate lowercases the suffix before testing
membership, so an entry whose suffix differs from a recognized extension
only in letter case passes the gate and proceeds to retrieval. -/
theorem extension_gate_case_insensitive (w : World)
    (cve_id parent_sha commit_hash : String) (item : DiffItem) (ext : String)
    (hM : item.change_type = "M")
    (hext : ext ∈ VALID_EXTENSIONS)
    (hlow : mapToLower (pySuffix item.a_path) = ext) :
    processFile_run w cve_id parent_sha commit_hash item =
      pairPhase w cve_id item.a_path parent_sha commit_hash := by
  unfold processFile_run
  rw [if_neg (by simp [hM])]
  rw [if_neg (show ¬ suffixLower item.a_path ∉ VALID_EXTENSIONS by
    simp only [suffixLower, hlow]
    simpa using hext)]

/-- C10 witness: `"src/Auth.JAVA"` has the unrecognized suffix
`".JAVA"`, yet passes the gate because it lowercases to `".java"`. -/
theorem extension_gate_case_insensitive_witness :
    pySuffix "src/Auth.JAVA" = ".JAVA" ∧
    (".JAVA" ∈ VALID_EXTENSIONS → False) ∧
    processFile_run demoWorldOK "CVE-1" "p0" "c0"
      { change_type := "M", a_path := "src/Auth.JAVA" } =
      pairPhase demoWorldOK "CVE-1" "src/Auth.JAVA" "p0" "c0" :=
  ⟨by decide, by decide,
   extension_gate_case_insensitive demoWorldOK "CVE-1" "p0" "c0" _ ".java"
     rfl (by decide) (by decide)⟩


end CyDS
